import Mathlib

/-!
Verification of the Loto7 prediction engine (`app/models.py`,
`app/services/data_service.py`, `app/services/prediction_service.py`,
`app/services/statistical_analyzer.py`) against its specification.

Shallow-embedding conventions used throughout:
* Python ints are `Int` (record fields that may hold arbitrary input) or
  `Nat` (lottery numbers drawn from `1..37`).
* Python floats are exact rationals `ℚ`; `round(x, 2)` is modelled by
  rounding `x * 100` half-to-even (Python's rounding mode) over `ℚ`.
* Python dicts with a fixed key set are structures; dicts with optional
  keys are structures of `Option` fields; a `dict.get` miss is `none` and
  a `KeyError` on `data[key]` is an `Except.error`.
* Raised exceptions are `Except String`; a function that cannot raise is
  a plain function.
* `random.sample` streams are an explicit list of samples supplied as an
  argument; the generation loop consumes one sample per attempt.
-/

namespace Loto7

/-! ## Data model (`app/models.py`) -/

/-- Python `Dict[str, Any]` evaluation payload, opaque to storage: modelled
as an association list; only its truthiness (empty / non-empty) matters to
the persistence layer. -/
abbrev EvalMap := List (String × String)

/-- Python truthiness of the optional `evaluation` field: `None` and the
empty dict `\x7b\x7d` are falsy. -/
def evalTruthy : Option EvalMap → Bool
  | none => false
  | some m => !m.isEmpty

/-- Mirrors `class Loto7Draw` (`app/models.py`). -/
structure Loto7Draw where
  id : String
  date : String
  main : List Int
  bonus : List Int
  evaluation : Option EvalMap := none
deriving DecidableEq

/-- A JSON object for one draw record: each expected key either present or
absent, as `json.load` hands it to `Loto7Draw.from_dict`. -/
structure RawDraw where
  id? : Option String := none
  date? : Option String := none
  main? : Option (List Int) := none
  bonus? : Option (List Int) := none
  evaluation? : Option EvalMap := none
deriving DecidableEq

/-- Mirrors `Loto7Draw.to_dict`: the `evaluation` key is written only when
`self.evaluation` is truthy (`if self.evaluation:`). -/
def Loto7Draw.to_dict (d : Loto7Draw) : RawDraw :=
  { id? := some d.id
    date? := some d.date
    main? := some d.main
    bonus? := some d.bonus
    evaluation? := if evalTruthy d.evaluation then d.evaluation else none }

/-- Mirrors `Loto7Draw.from_dict`: `data['id']`, `data['date']`,
`data['main']`, `data['bonus']` raise `KeyError` when absent, while
`data.get('evaluation')` defaults to `None`. -/
def Loto7Draw.from_dict (data : RawDraw) : Except String Loto7Draw :=
  match data.id?, data.date?, data.main?, data.bonus? with
  | some i, some dt, some m, some b =>
      .ok { id := i, date := dt, main := m, bonus := b, evaluation := data.evaluation? }
  | _, _, _, _ => .error "KeyError"

/-- Mirrors `Loto7Draw.validate`; `len(set(xs))` is `xs.dedup.length`. -/
def Loto7Draw.validate (d : Loto7Draw) : Bool :=
  d.main.length == 7 &&
  d.main.all (fun n => decide (1 ≤ n ∧ n ≤ 37)) &&
  d.main.dedup.length == 7 &&
  d.bonus.length == 2 &&
  d.bonus.all (fun n => decide (1 ≤ n ∧ n ≤ 37)) &&
  d.bonus.dedup.length == 2 &&
  !(d.main.any (fun n => d.bonus.contains n))

/-! ## Persistence (`app/services/data_service.py`)

The store file is abstracted to what `open` + `json.load` can yield:
the file is missing (`FileNotFoundError`), its text is not JSON
(`json.JSONDecodeError`), or it parses to a document whose `draws` key
(defaulting to the empty list, per `data.get('draws', [])`) holds a list
of raw record objects. -/

inductive FileContent where
  | missing
  | invalid
  | doc (draws : List RawDraw)
deriving DecidableEq

/-- The list comprehension `[Loto7Draw.from_dict(draw) for draw in ...]`:
the first `KeyError` propagates. -/
def parseRecords : List RawDraw → Except String (List Loto7Draw)
  | [] => .ok []
  | r :: rs => do
      let d ← Loto7Draw.from_dict r
      let ds ← parseRecords rs
      return d :: ds

/-- Mirrors `DataService.load_draws`: `FileNotFoundError` and
`json.JSONDecodeError` are caught and yield `[]`; any other exception
(notably `KeyError` from `from_dict`) propagates. -/
def load_draws : FileContent → Except String (List Loto7Draw)
  | .missing => .ok []
  | .invalid => .ok []
  | .doc rs => parseRecords rs

/-- Mirrors `DataService.add_draw` over the loaded store list: validate,
reject a duplicate id, else insert at index 0 (most recent first). The
final `save_draws` write-back is the returned list. -/
def add_draw (store : List Loto7Draw) (new_draw : Loto7Draw) : Except String (List Loto7Draw) :=
  if !new_draw.validate then
    .error ("Invalid draw data: " ++ new_draw.id)
  else if store.any (fun d => d.id == new_draw.id) then
    .error ("Draw with ID " ++ new_draw.id ++ " already exists.")
  else
    .ok (new_draw :: store)

/-! ## Filter predicates (`app/services/prediction_service.py`)

`PredictionService` state used by the filters: `self.previous_draw_numbers`
(a `Finset ℕ`, empty when no previous draw is set) and the sum bounds taken
from `FilterConfig`. A candidate combination is the sorted tuple
`combo : List ℕ`. -/

/-- Mirrors `FilterConfig` (`app/services/statistical_analyzer.py`) with its
defaults; weights are Python floats, modelled as `ℚ`. -/
structure FilterConfig where
  continuous_max : ℕ := 1
  continuous_weight : ℚ := 10
  zone3_required : Bool := true
  zone3_weight : ℚ := 15
  zone4_required : Bool := true
  zone4_weight : ℚ := 15
  odd_even_balance : ℕ × ℕ := (3, 4)
  odd_even_weight : ℚ := 10
  sum_min : ℕ := 100
  sum_max : ℕ := 170
  sum_weight : ℚ := 15
  last_digit_max_duplicate : ℕ := 2
  last_digit_weight : ℚ := 10
  pull_max : ℕ := 1
  pull_weight : ℚ := 10
  frequency_weight : ℚ := 15
deriving DecidableEq

/-- Mirrors `PredictionService._has_continuous`: scan adjacent positions for
a pair differing by exactly one. -/
def has_continuous : List ℕ → Bool
  | a :: b :: rest => (a + 1 == b) || has_continuous (b :: rest)
  | _ => false

/-- Mirrors `PredictionService._check_zone3`. -/
def check_zone3 (combo : List ℕ) : Bool :=
  combo.any (fun n => decide (1 ≤ n ∧ n ≤ 12)) &&
  combo.any (fun n => decide (13 ≤ n ∧ n ≤ 25)) &&
  combo.any (fun n => decide (26 ≤ n ∧ n ≤ 37))

/-- Mirrors `PredictionService._check_zone4`. -/
def check_zone4 (combo : List ℕ) : Bool :=
  combo.any (fun n => decide (1 ≤ n ∧ n ≤ 9)) &&
  combo.any (fun n => decide (10 ≤ n ∧ n ≤ 18)) &&
  combo.any (fun n => decide (19 ≤ n ∧ n ≤ 27)) &&
  combo.any (fun n => decide (28 ≤ n ∧ n ≤ 37))

/-- Mirrors `PredictionService._check_odd_even`: the odd count must be 3 or 4. -/
def check_odd_even (combo : List ℕ) : Bool :=
  let odd_count := combo.countP (fun n => n % 2 != 0)
  odd_count == 3 || odd_count == 4

/-- Mirrors `PredictionService._check_sum`. -/
def check_sum (cfg : FilterConfig) (combo : List ℕ) : Bool :=
  decide (cfg.sum_min ≤ combo.sum ∧ combo.sum ≤ cfg.sum_max)

/-- Mirrors `PredictionService._check_last_digits`: the largest multiplicity
among last digits (`Counter` values) must be below 3. -/
def check_last_digits (combo : List ℕ) : Bool :=
  let last_digits := combo.map (fun n => n % 10)
  decide ((last_digits.map (fun d => last_digits.count d)).foldr max 0 < 3)

/-- Mirrors `PredictionService._check_pull`: vacuously true when no previous
draw is set, else the overlap with the previous draw's numbers is 0 or 1. -/
def check_pull (prev : Finset ℕ) (combo : List ℕ) : Bool :=
  if prev = ∅ then true
  else
    let pull_count := (combo.toFinset ∩ prev).card
    pull_count == 0 || pull_count == 1

/-- Mirrors `PredictionService._apply_filters`: the conjunction of all seven
filter predicates. -/
def apply_filters (cfg : FilterConfig) (prev : Finset ℕ) (combo : List ℕ) : Bool :=
  has_continuous combo && check_zone3 combo && check_zone4 combo &&
  check_odd_even combo && check_sum cfg combo && check_last_digits combo &&
  check_pull prev combo

/-! ## Candidate generation (`PredictionService.generate_predictions`) -/

/-- Python's `sorted`, as an ascending insertion sort over `ℕ`. -/
def insertAsc (x : ℕ) : List ℕ → List ℕ
  | [] => [x]
  | y :: l => if x ≤ y then x :: y :: l else y :: insertAsc x l

/-- Ascending sort of a sampled 7-subset (`tuple(sorted(sample))`). -/
def sortAsc (l : List ℕ) : List ℕ := l.foldr insertAsc []

/-- The `while` loop of `generate_predictions`: `fuel` is the attempt budget
still unspent, `samples` the pending outputs of `random.sample`, and
`candidates` the accepted set in insertion order (a Python `set` of sorted
tuples: membership is the dedup). Returns the final candidates and the
number of attempts actually consumed. -/
def gen_loop (cfg : FilterConfig) (prev : Finset ℕ) (count : ℕ) :
    ℕ → List (List ℕ) → List (List ℕ) → List (List ℕ) × ℕ
  | fuel, samples, candidates =>
    if count ≤ candidates.length then (candidates, 0)
    else
      match fuel, samples with
      | 0, _ => (candidates, 0)
      | _, [] => (candidates, 0)
      | fuel' + 1, s :: rest =>
          let combo := sortAsc s
          let candidates' :=
            if apply_filters cfg prev combo && !(candidates.contains combo) then
              candidates ++ [combo]
            else candidates
          let r := gen_loop cfg prev count fuel' rest candidates'
          (r.1, r.2 + 1)

/-- Mirrors `PredictionService.generate_predictions`: run the sampling loop
from an empty accepted set and return the accepted combinations. -/
def generate_predictions (cfg : FilterConfig) (prev : Finset ℕ)
    (count max_attempts : ℕ) (samples : List (List ℕ)) : List (List ℕ) :=
  (gen_loop cfg prev count max_attempts samples []).1

/-! ## Historical analysis (`app/services/statistical_analyzer.py`)

The analyzer's `historical_stats` dict (keys 1..37) is modelled as a total
function `ℕ → StatisticalMetrics`; every draw fed to it is a valid record,
so its main numbers lie in 1..37 and only those keys are ever touched. A
draw is represented by its list of main numbers. -/

/-- Scoring constants from the top of `statistical_analyzer.py`. -/
def OVERDUE_SCORE_MULTIPLIER : ℚ := 50

def HOT_NUMBER_TARGET_PERCENTAGE : ℚ := 40

def BALANCED_NUMBER_WEIGHT : ℚ := 2 / 5

def OVERDUE_NUMBER_TARGET_PERCENTAGE : ℚ := 20

def NEUTRAL_FREQUENCY_SCORE : ℚ := 50

/-- Mirrors `@dataclass StatisticalMetrics`. -/
structure StatisticalMetrics where
  number : ℕ
  frequency : ℕ := 0
  recent_frequency : ℕ := 0
  last_appearance : Option ℕ := none
  hot_score : ℚ := 0
  cold_score : ℚ := 0
  overdue_score : ℚ := 0
deriving DecidableEq

/-- The freshly initialized stats table (`StatisticalMetrics(number=num)`). -/
def initStats : ℕ → StatisticalMetrics := fun num => { number := num }

/-- The body of the inner `for num in numbers` loop of
`analyze_historical_data` at draw index `i`: bump `frequency`, bump
`recent_frequency` when `i < window`, and set `last_appearance` the first
time the number is seen. -/
def scanHit (i window : ℕ) (s : StatisticalMetrics) : StatisticalMetrics :=
  { s with
    frequency := s.frequency + 1
    recent_frequency :=
      if i < window then s.recent_frequency + 1 else s.recent_frequency
    last_appearance :=
      match s.last_appearance with
      | none => some i
      | some j => some j }

/-- The inner `for num in numbers` loop of `analyze_historical_data` at draw
index `i`, applied to the stats table pointwise. -/
def scanDraw (i window : ℕ) (numbers : List ℕ)
    (stats : ℕ → StatisticalMetrics) : ℕ → StatisticalMetrics :=
  numbers.foldl
    (fun st num => fun m => if m = num then scanHit i window (st num) else st m)
    stats

/-- The outer `for i, draw in enumerate(draws)` loop, with `i` the index of
the first pending draw. -/
def scanFrom (window : ℕ) : ℕ → List (List ℕ) → (ℕ → StatisticalMetrics) →
    (ℕ → StatisticalMetrics)
  | _, [], st => st
  | i, d :: rest, st => scanFrom window (i + 1) rest (scanDraw i window d st)

/-- The derived-score pass of `analyze_historical_data`, run only when at
least one draw exists (`if draws:`) and only over the table's keys 1..37. -/
def deriveScores (nDraws window : ℕ) (scan : ℕ → StatisticalMetrics) :
    ℕ → StatisticalMetrics :=
  if nDraws = 0 then scan
  else fun num =>
    if 1 ≤ num ∧ num ≤ 37 then
      let stats := scan num
      let hot : ℚ := (stats.recent_frequency : ℚ) / ((min window nDraws : ℕ) : ℚ) * 100
      let avg_frequency : ℚ := (∑ m ∈ Finset.Icc 1 37, ((scan m).frequency : ℚ)) / 37
      let cold : ℚ :=
        if avg_frequency > 0 then
          max 0 ((avg_frequency - (stats.frequency : ℚ)) / avg_frequency * 100)
        else 0
      let overdue : ℚ :=
        match stats.last_appearance with
        | some la =>
            let expected_gap : ℚ :=
              (nDraws : ℚ) / (if stats.frequency > 0 then (stats.frequency : ℚ) else 1)
            if expected_gap > 0 then
              min 100 ((la : ℚ) / expected_gap * OVERDUE_SCORE_MULTIPLIER)
            else 0
        | none => 100
      { stats with hot_score := hot, cold_score := cold, overdue_score := overdue }
    else scan num

/-- Mirrors `StatisticalAnalyzer.analyze_historical_data` (default
`recent_window` is 10): full scan of the draws, then the derived scores. -/
def analyze_historical_data (draws : List (List ℕ)) (window : ℕ) :
    ℕ → StatisticalMetrics :=
  deriveScores draws.length window (scanFrom window 0 draws initStats)

/-! ## Scoring (`StatisticalAnalyzer.score_combination`) -/

/-- Python's `round(x, 2)` over `ℚ`: round `x * 100` to an integer with
ties to even (Python's rounding mode), then divide by 100. -/
def roundHalfEven (x : ℚ) : ℤ :=
  if Int.fract x = 1 / 2 then (if Even ⌊x⌋ then ⌊x⌋ else ⌊x⌋ + 1)
  else round x

/-- Round a rational to two decimal places (the model of `round(x, 2)`). -/
def round2 (x : ℚ) : ℚ := (roundHalfEven (x * 100) : ℚ) / 100

/-- The pass flags `evaluation[name]['pass']` that `score_combination` reads
from an evaluation map produced by `evaluate_combination`. -/
structure EvalPasses where
  continuous : Bool
  zone3 : Bool
  zone4 : Bool
  odd_even : Bool
  sum : Bool
  last_digits : Bool
  pull : Bool
deriving DecidableEq

/-- Mirrors `StatisticalAnalyzer._calculate_frequency_score`, called when
`historical_stats` is non-empty. -/
def calculate_frequency_score (stats : ℕ → StatisticalMetrics) (combo : List ℕ) : ℚ :=
  let hot_avg := (combo.map (fun n => (stats n).hot_score)).sum / 7
  let cold_avg := (combo.map (fun n => (stats n).cold_score)).sum / 7
  let overdue_avg := (combo.map (fun n => (stats n).overdue_score)).sum / 7
  let balance_score :=
    min (hot_avg / HOT_NUMBER_TARGET_PERCENTAGE) 1 * HOT_NUMBER_TARGET_PERCENTAGE +
    (100 - |NEUTRAL_FREQUENCY_SCORE - cold_avg|) * BALANCED_NUMBER_WEIGHT +
    min (overdue_avg / OVERDUE_NUMBER_TARGET_PERCENTAGE) 1 * OVERDUE_NUMBER_TARGET_PERCENTAGE
  min 100 balance_score

/-- The result dict of `score_combination`: per-criterion scores, the
rounded final score, and the weight vector used. -/
structure ScoringResult where
  scores : List (String × ℚ)
  final_score : ℚ
  weights : List (String × ℚ)
deriving DecidableEq

/-- Mirrors `StatisticalAnalyzer.score_combination`. `historical_stats` is
`none` when the analyzer's dict is empty (`if self.historical_stats:` is
false) and `some stats` otherwise. -/
def score_combination (cfg : FilterConfig)
    (historical_stats : Option (ℕ → StatisticalMetrics))
    (combo : List ℕ) (ev : EvalPasses) : ScoringResult :=
  let continuous_score : ℚ := if ev.continuous then 100 else 0
  let zone3_score : ℚ := if ev.zone3 then 100 else 0
  let zone4_score : ℚ := if ev.zone4 then 100 else 0
  let odd_even_score : ℚ := if ev.odd_even then 100 else 0
  let sum_score : ℚ := if ev.sum then 100 else 0
  let last_digit_score : ℚ := if ev.last_digits then 100 else 0
  let pull_score : ℚ := if ev.pull then 100 else 0
  let weighted_sum7 : ℚ :=
    continuous_score * cfg.continuous_weight + zone3_score * cfg.zone3_weight +
    zone4_score * cfg.zone4_weight + odd_even_score * cfg.odd_even_weight +
    sum_score * cfg.sum_weight + last_digit_score * cfg.last_digit_weight +
    pull_score * cfg.pull_weight
  let total_weight7 : ℚ :=
    cfg.continuous_weight + cfg.zone3_weight + cfg.zone4_weight +
    cfg.odd_even_weight + cfg.sum_weight + cfg.last_digit_weight + cfg.pull_weight
  let scores7 : List (String × ℚ) :=
    [("continuous", continuous_score), ("zone3", zone3_score), ("zone4", zone4_score),
     ("odd_even", odd_even_score), ("sum", sum_score), ("last_digits", last_digit_score),
     ("pull", pull_score)]
  let weighted_sum : ℚ :=
    match historical_stats with
    | some stats => weighted_sum7 + calculate_frequency_score stats combo * cfg.frequency_weight
    | none => weighted_sum7
  let total_weight : ℚ :=
    match historical_stats with
    | some _ => total_weight7 + cfg.frequency_weight
    | none => total_weight7
  let scores : List (String × ℚ) :=
    match historical_stats with
    | some stats => scores7 ++ [("frequency", calculate_frequency_score stats combo)]
    | none => scores7
  let final_score : ℚ := if total_weight > 0 then weighted_sum / total_weight else 0
  { scores := scores
    final_score := round2 final_score
    weights :=
      [("continuous", cfg.continuous_weight), ("zone3", cfg.zone3_weight),
       ("zone4", cfg.zone4_weight), ("odd_even", cfg.odd_even_weight),
       ("sum", cfg.sum_weight), ("last_digits", cfg.last_digit_weight),
       ("pull", cfg.pull_weight),
       ("frequency", if historical_stats.isSome then cfg.frequency_weight else 0)] }

/-! ## Ranking (`StatisticalAnalyzer.rank_predictions`) -/

/-- One element of the `predictions` argument: a combination together with
its `evaluation` and `scoring` entries. -/
structure PredEntry where
  combo : List ℕ
  evaluation : Option EvalPasses
  scoring : Option ScoringResult
deriving DecidableEq

/-- One element of the ranked output list. -/
structure RankedPrediction where
  rank : ℕ
  combination : List ℕ
  score : Option ℚ
  evaluation : Option EvalPasses
  scoring : Option ScoringResult
deriving DecidableEq

/-- The sort key `x[1]['scoring']['final_score']`; entries reaching the sort
always carry a scoring result, so the default is never read. -/
def entryKey (e : PredEntry) : ℚ :=
  ((e.scoring.map fun s => s.final_score).getD 0)

/-- Python's `sorted(..., reverse=True)` is a stable descending sort: it is
modelled by insertion sort with the relation that keeps an earlier element
in front of any later element of equal key. -/
def sortByScoreDesc (l : List PredEntry) : List PredEntry :=
  List.insertionSort (fun a b => entryKey b ≤ entryKey a) l

/-- One element of the ranked-branch output of `rank_predictions`: the
`results.append` body, with `rank` from `enumerate(ranked, 1)`. -/
def rankedEntry (p : ℕ × PredEntry) : RankedPrediction :=
  { rank := p.1 + 1, combination := p.2.combo,
    score := p.2.scoring.map (fun s => s.final_score),
    evaluation := p.2.evaluation, scoring := p.2.scoring }

/-- Mirrors `StatisticalAnalyzer.rank_predictions`. -/
def rank_predictions (predictions : List PredEntry) : List RankedPrediction :=
  let predictions_with_scores := predictions.filter (fun e => e.scoring.isSome)
  if predictions_with_scores.isEmpty then
    predictions.enum.map (fun p =>
      { rank := p.1 + 1, combination := p.2.combo, score := none,
        evaluation := p.2.evaluation, scoring := none })
  else
    let ranked := sortByScoreDesc predictions_with_scores
    ranked.enum.map rankedEntry

/-- The numeric score of a ranked output entry (its `score` field, which is
`some` whenever the scored branch produced it). -/
def rankedScore (r : RankedPrediction) : ℚ := r.score.getD 0

/-! # Theorems -/

/-! ## C5: the pull filter -/

/-- C5: the pull filter accepts exactly when the previous-draw set is empty
or the overlap between the candidate and the previous draw's main+bonus
numbers has size 0 or 1; against previous numbers
12,22,23,26,33,35,37,2,21 the candidate 12,22,8,10,14,15,19 (overlap 2)
fails and 12,5,8,10,14,15,19 (overlap 1) passes. -/
theorem check_pull_characterization :
    (∀ (prev : Finset ℕ) (combo : List ℕ),
        check_pull prev combo = true ↔
          prev = ∅ ∨ (combo.toFinset ∩ prev).card = 0 ∨ (combo.toFinset ∩ prev).card = 1) ∧
    check_pull ({12, 22, 23, 26, 33, 35, 37, 2, 21} : Finset ℕ) [12, 22, 8, 10, 14, 15, 19] = false ∧
    check_pull ({12, 22, 23, 26, 33, 35, 37, 2, 21} : Finset ℕ) [12, 5, 8, 10, 14, 15, 19] = true := by
  refine ⟨fun prev combo => ?_, by decide, by decide⟩
  unfold check_pull
  by_cases h : prev = ∅
  · simp [h]
  · simp [h]

/-! ## C7: degradation of the persisted store -/

/-- A record parse succeeding forces every record of the list to parse. -/
theorem parseRecords_ok_forall {rs : List RawDraw} {ds : List Loto7Draw}
    (h : parseRecords rs = .ok ds) : ∀ r ∈ rs, ∃ d, Loto7Draw.from_dict r = .ok d := by
  induction rs generalizing ds with
  | nil => intro r hr; cases hr
  | cons r rs ih =>
      intro x hx
      cases hfd : Loto7Draw.from_dict r with
      | error e => rw [parseRecords, hfd] at h; cases h
      | ok d =>
          cases hps : parseRecords rs with
          | error e => rw [parseRecords, hfd, hps] at h; cases h
          | ok ds' =>
              rcases List.mem_cons.mp hx with rfl | hx'
              · exact ⟨d, hfd⟩
              · exact ih hps x hx'

/-- A raw record missing one of the four required keys fails to parse. -/
theorem from_dict_missing_key {r : RawDraw}
    (h : r.id? = none ∨ r.date? = none ∨ r.main? = none ∨ r.bonus? = none) :
    Loto7Draw.from_dict r = .error "KeyError" := by
  unfold Loto7Draw.from_dict
  rcases hid : r.id? with _ | i <;> rcases hdt : r.date? with _ | dt <;>
    rcases hm : r.main? with _ | m <;> rcases hb : r.bonus? with _ | b <;> simp_all

/-- C7 (amended): a missing file and non-JSON content both degrade to the
empty draw list, but a record inside valid JSON that lacks a required key
raises an error which propagates out of `load_draws`. -/
theorem load_draws_degrades :
    load_draws .missing = .ok [] ∧
    load_draws .invalid = .ok [] ∧
    (∀ rs : List RawDraw,
      (∃ r ∈ rs, r.id? = none ∨ r.date? = none ∨ r.main? = none ∨ r.bonus? = none) →
      ∃ msg, load_draws (.doc rs) = .error msg) := by
  refine ⟨rfl, rfl, fun rs ⟨r, hr, hkey⟩ => ?_⟩
  cases hld : load_draws (.doc rs) with
  | error msg => exact ⟨msg, rfl⟩
  | ok ds =>
      exfalso
      obtain ⟨d, hd⟩ := parseRecords_ok_forall hld r hr
      rw [from_dict_missing_key hkey] at hd
      cases hd

/-- C7 counterexample to the claim as stated: corrupt record content inside
valid JSON (a record object with no keys) does not yield the empty list; the
`KeyError` propagates. -/
theorem load_draws_keyerror_cex :
    load_draws (.doc [{}]) = .error "KeyError" ∧
    load_draws (.doc [{}]) ≠ .ok [] := by
  refine ⟨rfl, fun h => ?_⟩
  rw [show load_draws (.doc [{}]) = .error "KeyError" from rfl] at h
  cases h

/-! ## C8: validated insertion into the store -/

/-- The `len(set(l)) == len(l)` idiom detects exactly the duplicate-free lists. -/
theorem dedup_length_eq_iff {l : List Int} : l.dedup.length = l.length ↔ l.Nodup := by
  constructor
  · intro h
    have heq : l.dedup = l := l.dedup_sublist.eq_of_length h
    rw [← heq]
    exact l.nodup_dedup
  · intro h
    rw [h.dedup]

/-- C8: `add_draw` rejects a record failing validation (wrong counts,
out-of-range or duplicate numbers, main/bonus overlap) with the invalid-data
message, rejects a record whose id is already stored with the duplicate-id
message, and otherwise prepends the record to the store. -/
theorem add_draw_spec (store : List Loto7Draw) (d : Loto7Draw) :
    (d.validate = true ↔
      (d.main.length = 7 ∧ (∀ n ∈ d.main, 1 ≤ n ∧ n ≤ 37) ∧ d.main.Nodup ∧
       d.bonus.length = 2 ∧ (∀ n ∈ d.bonus, 1 ≤ n ∧ n ≤ 37) ∧ d.bonus.Nodup ∧
       ∀ n ∈ d.main, n ∉ d.bonus)) ∧
    (d.validate = false → add_draw store d = .error ("Invalid draw data: " ++ d.id)) ∧
    (d.validate = true → (∃ e ∈ store, e.id = d.id) →
      add_draw store d = .error ("Draw with ID " ++ d.id ++ " already exists.")) ∧
    (d.validate = true → (∀ e ∈ store, e.id ≠ d.id) →
      add_draw store d = .ok (d :: store)) := by
  have hvalid : d.validate = true ↔
      (d.main.length = 7 ∧ (∀ n ∈ d.main, 1 ≤ n ∧ n ≤ 37) ∧ d.main.Nodup ∧
       d.bonus.length = 2 ∧ (∀ n ∈ d.bonus, 1 ≤ n ∧ n ≤ 37) ∧ d.bonus.Nodup ∧
       ∀ n ∈ d.main, n ∉ d.bonus) := by
    unfold Loto7Draw.validate
    have hmem : ∀ n : Int, d.bonus.contains n = true ↔ n ∈ d.bonus := by
      intro n
      simp [List.contains, List.elem_iff]
    simp only [Bool.and_eq_true, beq_iff_eq, List.all_eq_true, decide_eq_true_eq,
      Bool.not_eq_true', List.any_eq_false]
    constructor
    · rintro ⟨⟨⟨⟨⟨⟨h1, h2⟩, h3⟩, h4⟩, h5⟩, h6⟩, h7⟩
      exact ⟨h1, h2, dedup_length_eq_iff.mp (h3.trans h1.symm), h4, h5,
        dedup_length_eq_iff.mp (h6.trans h4.symm),
        fun n hn hb => h7 n hn ((hmem n).mpr hb)⟩
    · rintro ⟨h1, h2, h3, h4, h5, h6, h7⟩
      exact ⟨⟨⟨⟨⟨⟨h1, h2⟩, (dedup_length_eq_iff.mpr h3).trans h1⟩, h4⟩, h5⟩,
        (dedup_length_eq_iff.mpr h6).trans h4⟩,
        fun n hn hc => h7 n hn ((hmem n).mp hc)⟩
  refine ⟨hvalid, fun hv => ?_, fun hv ⟨e, he, heid⟩ => ?_, fun hv hall => ?_⟩
  · unfold add_draw
    rw [hv]
    rfl
  · unfold add_draw
    rw [hv]
    have hany : store.any (fun x => x.id == d.id) = true :=
      List.any_eq_true.mpr ⟨e, he, beq_iff_eq.mpr heid⟩
    simp [hany]
  · unfold add_draw
    rw [hv]
    have hany : store.any (fun x => x.id == d.id) = false := by
      rw [List.any_eq_false]
      intro e he
      simp [hall e he]
    simp [hany]

/-! ## C9 and C10: serialization round trip -/

/-- Deserializing a serialized record succeeds and reproduces all fields,
with the evaluation passed through the truthiness gate of `to_dict`. -/
theorem from_dict_to_dict (d : Loto7Draw) :
    Loto7Draw.from_dict (Loto7Draw.to_dict d) =
      .ok { d with evaluation := if evalTruthy d.evaluation then d.evaluation else none } :=
  rfl

/-- Whenever the evaluation is not the empty map, the truthiness gate of
`to_dict` is the identity and the round trip reproduces the record. -/
theorem roundtrip_aux {d : Loto7Draw} (h : d.evaluation ≠ some []) :
    Loto7Draw.from_dict (Loto7Draw.to_dict d) = .ok d := by
  rw [from_dict_to_dict]
  have hgate : (if evalTruthy d.evaluation then d.evaluation else none) = d.evaluation := by
    rcases he : d.evaluation with _ | m
    · simp [evalTruthy]
    · have hm : m ≠ [] := fun hnil => h (by rw [he, hnil])
      simp [evalTruthy, List.isEmpty_eq_false.mpr hm]
  rw [hgate]

/-- C9 (amended): the `to_dict`/`from_dict` round trip reproduces all field
values for every record whose evaluation is not the empty map (in
particular for any record without an evaluation payload). -/
theorem to_from_dict_roundtrip (d : Loto7Draw) (h : d.evaluation ≠ some []) :
    Loto7Draw.from_dict (Loto7Draw.to_dict d) = .ok d :=
  roundtrip_aux h

/-- C9 witness: the spec's example record round-trips exactly. -/
theorem to_from_dict_roundtrip_witness :
    Loto7Draw.from_dict (Loto7Draw.to_dict
      ⟨"第650回", "2025-01-01", [1, 8, 10, 14, 25, 33, 35], [12, 21], none⟩) =
      .ok ⟨"第650回", "2025-01-01", [1, 8, 10, 14, 25, 33, 35], [12, 21], none⟩ :=
  to_from_dict_roundtrip _ (by decide)

/-- C9 counterexample: a record carrying the empty evaluation map comes back
with no evaluation at all, so the round trip does not reproduce identical
field values on every record. -/
theorem to_from_dict_roundtrip_cex :
    Loto7Draw.from_dict (Loto7Draw.to_dict
      ⟨"第650回", "2025-01-01", [1, 8, 10, 14, 25, 33, 35], [12, 21], some []⟩) =
      .ok ⟨"第650回", "2025-01-01", [1, 8, 10, 14, 25, 33, 35], [12, 21], none⟩ ∧
    (some ([] : EvalMap)) ≠ (none : Option EvalMap) :=
  ⟨rfl, by decide⟩

/-- C10: `to_dict` omits the evaluation key exactly when the evaluation is
falsy (absent or the empty map); a record with the empty-map evaluation
round-trips to one with no evaluation, and every other record round-trips
exactly. -/
theorem to_dict_evaluation_omission (d : Loto7Draw) :
    ((Loto7Draw.to_dict d).evaluation? = none ↔
      (d.evaluation = none ∨ d.evaluation = some [])) ∧
    (d.evaluation = some [] →
      Loto7Draw.from_dict (Loto7Draw.to_dict d) = .ok { d with evaluation := none }) ∧
    (d.evaluation ≠ some [] → Loto7Draw.from_dict (Loto7Draw.to_dict d) = .ok d) := by
  refine ⟨?_, fun h => ?_, fun h => roundtrip_aux h⟩
  · unfold Loto7Draw.to_dict
    rcases d.evaluation with _ | (_ | ⟨p, m⟩) <;> simp [evalTruthy]
  · rw [from_dict_to_dict, h]
    rfl

/-! ## C1 and C2: the sampling loop -/

/-- The loop exits immediately once the accepted set has reached `count`. -/
theorem gen_loop_stop {cfg : FilterConfig} {prev : Finset ℕ} {count : ℕ}
    {cands : List (List ℕ)} (h : count ≤ cands.length) (fuel : ℕ) (samples : List (List ℕ)) :
    gen_loop cfg prev count fuel samples cands = (cands, 0) := by
  unfold gen_loop
  rw [if_pos h]

/-- The loop exits when the attempt budget is spent. -/
theorem gen_loop_fuel_zero {cfg : FilterConfig} {prev : Finset ℕ} {count : ℕ}
    {cands : List (List ℕ)} (h : ¬ count ≤ cands.length) (samples : List (List ℕ)) :
    gen_loop cfg prev count 0 samples cands = (cands, 0) := by
  unfold gen_loop
  rw [if_neg h]
  cases samples <;> rfl


/-- The loop exits when the sample stream is exhausted. -/
theorem gen_loop_samples_nil {cfg : FilterConfig} {prev : Finset ℕ} {count : ℕ}
    {cands : List (List ℕ)} (h : ¬ count ≤ cands.length) (fuel : ℕ) :
    gen_loop cfg prev count (fuel + 1) [] cands = (cands, 0) := by
  unfold gen_loop
  rw [if_neg h]


/-- One sampling iteration: sort the sample, accept it when it passes the
filters and is new, recurse, and count the attempt. -/
theorem gen_loop_step {cfg : FilterConfig} {prev : Finset ℕ} {count : ℕ}
    {cands : List (List ℕ)} (h : ¬ count ≤ cands.length) (fuel : ℕ)
    (s : List ℕ) (rest : List (List ℕ)) :
    gen_loop cfg prev count (fuel + 1) (s :: rest) cands =
      ((gen_loop cfg prev count fuel rest
          (if apply_filters cfg prev (sortAsc s) && !(cands.contains (sortAsc s)) then
            cands ++ [sortAsc s]
          else cands)).1,
       (gen_loop cfg prev count fuel rest
          (if apply_filters cfg prev (sortAsc s) && !(cands.contains (sortAsc s)) then
            cands ++ [sortAsc s]
          else cands)).2 + 1) := by
  conv_lhs => unfold gen_loop
  rw [if_neg h]

/-- Invariant of the sampling loop: every accepted combination passes all
seven filters. -/
theorem gen_loop_sound (cfg : FilterConfig) (prev : Finset ℕ) (count : ℕ) :
    ∀ (fuel : ℕ) (samples cands : List (List ℕ)),
      (∀ c ∈ cands, apply_filters cfg prev c = true) →
      ∀ c ∈ (gen_loop cfg prev count fuel samples cands).1,
        apply_filters cfg prev c = true := by
  intro fuel
  induction fuel with
  | zero =>
      intro samples cands h c hc
      by_cases hlen : count ≤ cands.length
      · rw [gen_loop_stop hlen] at hc
        exact h c hc
      · rw [gen_loop_fuel_zero hlen] at hc
        exact h c hc
  | succ fuel ih =>
      intro samples cands h c hc
      by_cases hlen : count ≤ cands.length
      · rw [gen_loop_stop hlen] at hc
        exact h c hc
      · cases samples with
        | nil =>
            rw [gen_loop_samples_nil hlen] at hc
            exact h c hc
        | cons s rest =>
            rw [gen_loop_step hlen] at hc
            refine ih rest _ ?_ c hc
            intro x hx
            by_cases hacc :
                (apply_filters cfg prev (sortAsc s) && !(cands.contains (sortAsc s))) = true
            · rw [if_pos hacc] at hx
              rcases List.mem_append.mp hx with hx' | hx'
              · exact h x hx'
              · rw [List.mem_singleton.mp hx']
                exact (Bool.and_eq_true _ _ |>.mp hacc).1
            · rw [if_neg hacc] at hx
              exact h x hx

/-- C1: every combination returned by `generate_predictions` passes
`_apply_filters`, that is, all seven filter predicates. -/
theorem generate_predictions_filters (cfg : FilterConfig) (prev : Finset ℕ)
    (count max_attempts : ℕ) (samples : List (List ℕ)) :
    ∀ c ∈ generate_predictions cfg prev count max_attempts samples,
      apply_filters cfg prev c = true ∧
      has_continuous c = true ∧ check_zone3 c = true ∧ check_zone4 c = true ∧
      check_odd_even c = true ∧ check_sum cfg c = true ∧
      check_last_digits c = true ∧ check_pull prev c = true := by
  intro c hc
  have h := gen_loop_sound cfg prev count max_attempts samples []
    (by intro x hx; cases hx) c hc
  refine ⟨h, ?_⟩
  unfold apply_filters at h
  simp only [Bool.and_eq_true] at h
  exact ⟨h.1.1.1.1.1.1, h.1.1.1.1.1.2, h.1.1.1.1.2, h.1.1.1.2, h.1.1.2, h.1.2, h.2⟩

/-- C1 witness: a concrete sample is accepted and passes every filter. -/
theorem generate_predictions_filters_witness :
    apply_filters {} ∅ [1, 10, 13, 19, 26, 27, 34] = true ∧
    has_continuous [1, 10, 13, 19, 26, 27, 34] = true ∧
    check_zone3 [1, 10, 13, 19, 26, 27, 34] = true ∧
    check_zone4 [1, 10, 13, 19, 26, 27, 34] = true ∧
    check_odd_even [1, 10, 13, 19, 26, 27, 34] = true ∧
    check_sum {} [1, 10, 13, 19, 26, 27, 34] = true ∧
    check_last_digits [1, 10, 13, 19, 26, 27, 34] = true ∧
    check_pull ∅ [1, 10, 13, 19, 26, 27, 34] = true :=
  generate_predictions_filters {} ∅ 1 1 [[34, 1, 13, 19, 26, 27, 10]]
    [1, 10, 13, 19, 26, 27, 34] (by decide)

/-- Budget bounds of the sampling loop: the attempt count never exceeds the
remaining fuel or the sample stream, the accepted set never exceeds
`count`, and a short result means the fuel or the stream ran out. -/
theorem gen_loop_budget (cfg : FilterConfig) (prev : Finset ℕ) (count : ℕ) :
    ∀ (fuel : ℕ) (samples cands : List (List ℕ)),
      (gen_loop cfg prev count fuel samples cands).2 ≤ fuel ∧
      (gen_loop cfg prev count fuel samples cands).2 ≤ samples.length ∧
      (cands.length ≤ count →
        (gen_loop cfg prev count fuel samples cands).1.length ≤ count) ∧
      ((gen_loop cfg prev count fuel samples cands).1.length < count →
        (gen_loop cfg prev count fuel samples cands).2 = fuel ∨
        (gen_loop cfg prev count fuel samples cands).2 = samples.length) := by
  intro fuel
  induction fuel with
  | zero =>
      intro samples cands
      by_cases hlen : count ≤ cands.length
      · rw [gen_loop_stop hlen]
        dsimp only
        exact ⟨Nat.le_refl 0, Nat.zero_le _, fun h => h, fun h => Or.inl rfl⟩
      · rw [gen_loop_fuel_zero hlen]
        dsimp only
        exact ⟨Nat.le_refl 0, Nat.zero_le _, fun h => h, fun h => Or.inl rfl⟩
  | succ fuel ih =>
      intro samples cands
      by_cases hlen : count ≤ cands.length
      · rw [gen_loop_stop hlen]
        dsimp only
        exact ⟨Nat.zero_le _, Nat.zero_le _, fun h => h,
          fun h => absurd hlen (by omega)⟩
      · cases samples with
        | nil =>
            rw [gen_loop_samples_nil hlen]
            dsimp only
            exact ⟨Nat.zero_le _, Nat.le_refl 0, fun h => h, fun h => Or.inr rfl⟩
        | cons s rest =>
            rw [gen_loop_step hlen]
            dsimp only
            have hlen' :
                (if apply_filters cfg prev (sortAsc s) && !(cands.contains (sortAsc s)) then
                  cands ++ [sortAsc s]
                else cands).length ≤ count := by
              split
              · simp only [List.length_append, List.length_singleton]
                omega
              · omega
            obtain ⟨ih1, ih2, ih3, ih4⟩ := ih rest
              (if apply_filters cfg prev (sortAsc s) && !(cands.contains (sortAsc s)) then
                cands ++ [sortAsc s]
              else cands)
            refine ⟨by omega, ?_, fun h => ih3 hlen', fun h => ?_⟩
            · simp only [List.length_cons]
              omega
            · rcases ih4 h with h' | h'
              · exact Or.inl (by omega)
              · refine Or.inr ?_
                simp only [List.length_cons]
                omega

/-- C2: with `count ≥ 1`, generation consumes at most `max_attempts`
samples, returns at most `count` combinations, and a short result occurs
exactly when the attempt budget (or the modelled sample stream) ran out;
no error is raised in that case, the shorter list is returned. -/
theorem generate_predictions_budget (cfg : FilterConfig) (prev : Finset ℕ)
    (count max_attempts : ℕ) (samples : List (List ℕ)) (hcount : 1 ≤ count) :
    (gen_loop cfg prev count max_attempts samples []).2 ≤ max_attempts ∧
    (gen_loop cfg prev count max_attempts samples []).2 ≤ samples.length ∧
    (generate_predictions cfg prev count max_attempts samples).length ≤ count ∧
    ((generate_predictions cfg prev count max_attempts samples).length < count →
      (gen_loop cfg prev count max_attempts samples []).2 = max_attempts ∨
      (gen_loop cfg prev count max_attempts samples []).2 = samples.length) := by
  obtain ⟨h1, h2, h3, h4⟩ := gen_loop_budget cfg prev count max_attempts samples []
  exact ⟨h1, h2, h3 (Nat.zero_le _), h4⟩

/-- C2 witness: with a budget of zero attempts the loop returns the empty
list at once. -/
theorem generate_predictions_budget_witness :
    (gen_loop {} (∅ : Finset ℕ) 1 0 ([] : List (List ℕ)) []).2 ≤ 0 ∧
    (gen_loop {} (∅ : Finset ℕ) 1 0 ([] : List (List ℕ)) []).2 ≤
      ([] : List (List ℕ)).length ∧
    (generate_predictions {} (∅ : Finset ℕ) 1 0 []).length ≤ 1 ∧
    ((generate_predictions {} (∅ : Finset ℕ) 1 0 []).length < 1 →
      (gen_loop {} (∅ : Finset ℕ) 1 0 ([] : List (List ℕ)) []).2 = 0 ∨
      (gen_loop {} (∅ : Finset ℕ) 1 0 ([] : List (List ℕ)) []).2 =
        ([] : List (List ℕ)).length) :=
  generate_predictions_budget {} ∅ 1 0 [] (by decide)

/-! ## C6: the historical analyzer -/

/-- Unfolding one draw of the inner scan loop. -/
theorem scanDraw_cons (i w m : ℕ) (rest : List ℕ) (st : ℕ → StatisticalMetrics) :
    scanDraw i w (m :: rest) st =
      scanDraw i w rest (fun k => if k = m then scanHit i w (st m) else st k) :=
  rfl

/-- A draw not containing `n` leaves `n`'s statistics unchanged. -/
theorem scanDraw_not_mem {i w : ℕ} {nums : List ℕ} {st : ℕ → StatisticalMetrics}
    {n : ℕ} (h : n ∉ nums) : scanDraw i w nums st n = st n := by
  induction nums generalizing st with
  | nil => rfl
  | cons m rest ih =>
      have hne : n ≠ m := fun he => h (he ▸ List.mem_cons_self m rest)
      have hnr : n ∉ rest := fun hr => h (List.mem_cons_of_mem m hr)
      rw [scanDraw_cons, ih hnr]
      simp [hne]

/-- A draw containing `n` (with no duplicate entries) applies `scanHit` to
`n`'s statistics exactly once. -/
theorem scanDraw_mem {i w : ℕ} {nums : List ℕ} {st : ℕ → StatisticalMetrics}
    {n : ℕ} (hmem : n ∈ nums) (hnd : nums.Nodup) :
    scanDraw i w nums st n = scanHit i w (st n) := by
  induction nums generalizing st with
  | nil => cases hmem
  | cons m rest ih =>
      rcases List.nodup_cons.mp hnd with ⟨hmr, hndr⟩
      rw [scanDraw_cons]
      by_cases hnm : n = m
      · subst hnm
        rw [scanDraw_not_mem hmr]
        simp
      · have hmem' : n ∈ rest := by
          rcases List.mem_cons.mp hmem with h | h
          · exact absurd h hnm
          · exact h
        rw [ih hmem' hndr]
        simp [hnm]

/-- The effect of one draw on `n`'s `last_appearance`, for an arbitrary
draw (duplicates allowed): once set it never changes, and a first sighting
records the current index. -/
theorem scanDraw_lastApp (i w : ℕ) (nums : List ℕ) (st : ℕ → StatisticalMetrics)
    (n : ℕ) :
    (scanDraw i w nums st n).last_appearance =
      match (st n).last_appearance with
      | some j => some j
      | none => if n ∈ nums then some i else none := by
  induction nums generalizing st with
  | nil =>
      rcases hla : (st n).last_appearance with _ | j <;> simp [scanDraw, hla]
  | cons m rest ih =>
      rw [scanDraw_cons, ih]
      by_cases hnm : n = m
      · subst hnm
        simp only [if_pos rfl]
        rcases hla : (st n).last_appearance with _ | j
        · simp [scanHit, hla, List.mem_cons_self]
        · simp [scanHit, hla]
      · simp only [if_neg hnm]
        rcases hla : (st n).last_appearance with _ | j
        · simp [List.mem_cons, hnm]
        · rfl

/-- Unfolding one draw of the outer scan loop. -/
theorem scanFrom_cons (w i : ℕ) (d : List ℕ) (rest : List (List ℕ))
    (st : ℕ → StatisticalMetrics) :
    scanFrom w i (d :: rest) st = scanFrom w (i + 1) rest (scanDraw i w d st) :=
  rfl

/-- After the scan, `frequency` has counted the draws containing `n`
(each draw's main list being duplicate-free). -/
theorem scanFrom_frequency (w : ℕ) :
    ∀ (draws : List (List ℕ)) (i₀ : ℕ) (st : ℕ → StatisticalMetrics) (n : ℕ),
      (∀ d ∈ draws, d.Nodup) →
      (scanFrom w i₀ draws st n).frequency =
        (st n).frequency + draws.countP (fun d => decide (n ∈ d)) := by
  intro draws
  induction draws with
  | nil => intro i₀ st n h; simp [scanFrom]
  | cons d rest ih =>
      intro i₀ st n h
      rw [scanFrom_cons, ih (i₀ + 1) _ n (fun x hx => h x (List.mem_cons_of_mem d hx))]
      by_cases hm : n ∈ d
      · rw [scanDraw_mem hm (h d (List.mem_cons_self d rest))]
        simp [scanHit, List.countP_cons, decide_eq_true hm]
        omega
      · rw [scanDraw_not_mem hm]
        simp [List.countP_cons, decide_eq_false hm]

/-- A recorded `last_appearance` survives the rest of the scan. -/
theorem scanFrom_lastApp_some (w : ℕ) :
    ∀ (draws : List (List ℕ)) (i₀ : ℕ) (st : ℕ → StatisticalMetrics) (n j : ℕ),
      (st n).last_appearance = some j →
      (scanFrom w i₀ draws st n).last_appearance = some j := by
  intro draws
  induction draws with
  | nil => intro i₀ st n j h; exact h
  | cons d rest ih =>
      intro i₀ st n j h
      rw [scanFrom_cons]
      refine ih (i₀ + 1) _ n j ?_
      rw [scanDraw_lastApp, h]

/-- `last_appearance` is `none` after the scan exactly when it started
`none` and `n` appears in no scanned draw. -/
theorem scanFrom_lastApp_none_iff (w : ℕ) :
    ∀ (draws : List (List ℕ)) (i₀ : ℕ) (st : ℕ → StatisticalMetrics) (n : ℕ),
      ((scanFrom w i₀ draws st n).last_appearance = none ↔
        ((st n).last_appearance = none ∧ ∀ d ∈ draws, n ∉ d)) := by
  intro draws
  induction draws with
  | nil => intro i₀ st n; simp [scanFrom]
  | cons d rest ih =>
      intro i₀ st n
      rw [scanFrom_cons, ih, scanDraw_lastApp]
      rcases hla : (st n).last_appearance with _ | j
      · by_cases hm : n ∈ d
        · simp [hm]
        · simp [hm]
      · simp

/-- A `last_appearance` recorded by the scan from a fresh start is the
first (smallest) index of a draw containing `n`. -/
theorem scanFrom_lastApp_min (w : ℕ) :
    ∀ (draws : List (List ℕ)) (i₀ : ℕ) (st : ℕ → StatisticalMetrics) (n i : ℕ),
      (st n).last_appearance = none →
      (scanFrom w i₀ draws st n).last_appearance = some i →
      ∃ k, i = i₀ + k ∧ k < draws.length ∧ n ∈ draws.getD k [] ∧
        ∀ j < k, n ∉ draws.getD j [] := by
  intro draws
  induction draws with
  | nil =>
      intro i₀ st n i h0 hres
      rw [show scanFrom w i₀ [] st = st from rfl, h0] at hres
      cases hres
  | cons d rest ih =>
      intro i₀ st n i h0 hres
      rw [scanFrom_cons] at hres
      by_cases hm : n ∈ d
      · have hinner : (scanDraw i₀ w d st n).last_appearance = some i₀ := by
          rw [scanDraw_lastApp, h0]
          simp [hm]
        rw [scanFrom_lastApp_some w rest (i₀ + 1) _ n i₀ hinner] at hres
        have hi : i = i₀ := (Option.some.inj hres).symm
        subst hi
        exact ⟨0, by omega, by simp, by simpa using hm, fun j hj => absurd hj (by omega)⟩
      · have hinner : (scanDraw i₀ w d st n).last_appearance = none := by
          rw [scanDraw_lastApp, h0]
          simp [hm]
        obtain ⟨k', hik, hk, hmem, hmin⟩ := ih (i₀ + 1) _ n i hinner hres
        refine ⟨k' + 1, by omega, by simp only [List.length_cons]; omega,
          by simpa using hmem, ?_⟩
        intro j hj
        cases j with
        | zero => simpa using hm
        | succ j' => simpa using hmin j' (by omega)

/-- The derived-score pass never changes `frequency`. -/
theorem deriveScores_frequency (nd w : ℕ) (sc : ℕ → StatisticalMetrics) (n : ℕ) :
    (deriveScores nd w sc n).frequency = (sc n).frequency := by
  unfold deriveScores
  split
  · rfl
  · dsimp only
    split
    · rfl
    · rfl

/-- The derived-score pass never changes `last_appearance`. -/
theorem deriveScores_lastApp (nd w : ℕ) (sc : ℕ → StatisticalMetrics) (n : ℕ) :
    (deriveScores nd w sc n).last_appearance = (sc n).last_appearance := by
  unfold deriveScores
  split
  · rfl
  · dsimp only
    split
    · rfl
    · rfl

/-- With at least one draw, a number whose `last_appearance` is unset gets
the maximal overdue score. -/
theorem deriveScores_overdue_never (nd w : ℕ) (sc : ℕ → StatisticalMetrics) (n : ℕ)
    (hnd : nd ≠ 0) (hn : 1 ≤ n ∧ n ≤ 37)
    (hla : (sc n).last_appearance = none) :
    (deriveScores nd w sc n).overdue_score = 100 := by
  unfold deriveScores
  rw [if_neg hnd]
  dsimp only
  rw [if_pos hn]
  simp [hla]

/-- C6 (amended): after analyzing a sequence of valid draws with any window
of at least one, the frequency of `n` counts the draws containing `n`, the
recorded `last_appearance` is the smallest index of a draw containing `n`
(`none` exactly when `n` never appears), and — provided at least one draw
exists — a number appearing in no draw has overdue score 100. -/
theorem analyze_historical_data_stats (draws : List (List ℕ)) (window n : ℕ)
    (hvalid : ∀ d ∈ draws, d.Nodup ∧ ∀ m ∈ d, 1 ≤ m ∧ m ≤ 37)
    (hwindow : 1 ≤ window) (hn : 1 ≤ n ∧ n ≤ 37) :
    (analyze_historical_data draws window n).frequency =
      draws.countP (fun d => decide (n ∈ d)) ∧
    (∀ i, (analyze_historical_data draws window n).last_appearance = some i →
      i < draws.length ∧ n ∈ draws.getD i [] ∧ ∀ j < i, n ∉ draws.getD j []) ∧
    ((analyze_historical_data draws window n).last_appearance = none ↔
      ∀ d ∈ draws, n ∉ d) ∧
    (draws ≠ [] → (∀ d ∈ draws, n ∉ d) →
      (analyze_historical_data draws window n).overdue_score = 100) := by
  have hnodup : ∀ d ∈ draws, d.Nodup := fun d hd => (hvalid d hd).1
  refine ⟨?_, fun i hi => ?_, ?_, fun hne hnever => ?_⟩
  · rw [analyze_historical_data, deriveScores_frequency,
      scanFrom_frequency window draws 0 initStats n hnodup]
    simp [initStats]
  · rw [analyze_historical_data, deriveScores_lastApp] at hi
    obtain ⟨k, hik, hk, hmem, hmin⟩ :=
      scanFrom_lastApp_min window draws 0 initStats n i rfl hi
    have hki : k = i := by omega
    subst hki
    exact ⟨hk, hmem, hmin⟩
  · rw [analyze_historical_data, deriveScores_lastApp,
      scanFrom_lastApp_none_iff window draws 0 initStats n]
    simp [initStats]
  · refine deriveScores_overdue_never draws.length window _ n ?_ hn ?_
    · simpa using hne
    · exact (scanFrom_lastApp_none_iff window draws 0 initStats n).mpr ⟨rfl, hnever⟩

/-- C6 witness: one draw containing 35 gives it frequency 1. -/
theorem analyze_historical_data_stats_witness :
    (analyze_historical_data [[1, 8, 10, 14, 25, 33, 35]] 10 35).frequency =
      List.countP (fun d => decide (35 ∈ d)) [[1, 8, 10, 14, 25, 33, 35]] :=
  (analyze_historical_data_stats [[1, 8, 10, 14, 25, 33, 35]] 10 35
    (by decide) (by decide) (by decide)).1

/-- C6 counterexample to the claim as stated: on the empty draw sequence
the derived-score pass is skipped, so a number appearing in no draw keeps
overdue score 0, not 100. -/
theorem analyze_empty_overdue_cex :
    (∀ d ∈ ([] : List (List ℕ)), (1 : ℕ) ∉ d) ∧
    (analyze_historical_data [] 10 1).overdue_score = 0 ∧
    (analyze_historical_data [] 10 1).overdue_score ≠ 100 := by
  have h : (analyze_historical_data [] 10 1).overdue_score = 0 := rfl
  refine ⟨fun d hd => absurd hd (List.not_mem_nil d), h, ?_⟩
  rw [h]
  norm_num

/-! ## C3: the scoring engine -/

/-- Half-even rounding never goes below the floor. -/
theorem floor_le_roundHalfEven (x : ℚ) : ⌊x⌋ ≤ roundHalfEven x := by
  unfold roundHalfEven
  split
  · split
    · exact le_refl _
    · omega
  · rw [round_eq]
    exact Int.floor_mono (by linarith)

/-- Half-even rounding never exceeds the ceiling. -/
theorem roundHalfEven_le_ceil (x : ℚ) : roundHalfEven x ≤ ⌈x⌉ := by
  unfold roundHalfEven
  split
  · rename_i h
    have hx : ((⌊x⌋ : ℚ)) < x := by
      have hfl := Int.floor_add_fract x
      rw [h] at hfl
      linarith
    have hlt : ⌊x⌋ < ⌈x⌉ := Int.lt_ceil.mpr hx
    split
    · omega
    · omega
  · rw [round_eq]
    have hlt : ⌊x + 1 / 2⌋ < ⌈x⌉ + 1 := by
      rw [Int.floor_lt]
      have := Int.le_ceil x
      push_cast
      linarith
    omega

/-- Rounding to two decimals keeps a value of `[0, 100]` inside `[0, 100]`. -/
theorem round2_bounds {x : ℚ} (h0 : 0 ≤ x) (h1 : x ≤ 100) :
    0 ≤ round2 x ∧ round2 x ≤ 100 := by
  unfold round2
  have hf : (0 : ℤ) ≤ ⌊x * 100⌋ := Int.floor_nonneg.mpr (by positivity)
  have hlo : (0 : ℤ) ≤ roundHalfEven (x * 100) :=
    le_trans hf (floor_le_roundHalfEven (x * 100))
  have hc : ⌈x * 100⌉ ≤ (10000 : ℤ) := Int.ceil_le.mpr (by push_cast; linarith)
  have hhi : roundHalfEven (x * 100) ≤ 10000 :=
    le_trans (roundHalfEven_le_ceil (x * 100)) hc
  constructor
  · apply div_nonneg _ (by norm_num)
    exact_mod_cast hlo
  · rw [div_le_iff (by norm_num : (0 : ℚ) < 100)]
    calc ((roundHalfEven (x * 100) : ℤ) : ℚ) ≤ 10000 := by exact_mod_cast hhi
    _ = 100 * 100 := by norm_num

/-- The average of 7 values of `[0, 100]` lies in `[0, 100]`. -/
theorem avg_bounds {f : ℕ → ℚ} {combo : List ℕ} (h7 : combo.length = 7)
    (h : ∀ n ∈ combo, 0 ≤ f n ∧ f n ≤ 100) :
    0 ≤ (combo.map f).sum / 7 ∧ (combo.map f).sum / 7 ≤ 100 := by
  have h0 : 0 ≤ (combo.map f).sum := by
    apply List.sum_nonneg
    intro x hx
    obtain ⟨n, hn, rfl⟩ := List.mem_map.mp hx
    exact (h n hn).1
  have h1 : (combo.map f).sum ≤ (combo.map f).length • (100 : ℚ) := by
    apply List.sum_le_card_nsmul
    intro x hx
    obtain ⟨n, hn, rfl⟩ := List.mem_map.mp hx
    exact (h n hn).2
  rw [List.length_map, h7, nsmul_eq_mul] at h1
  constructor
  · positivity
  · rw [div_le_iff (by norm_num : (0 : ℚ) < 7)]
    push_cast at h1
    linarith

/-- The balance formula of `_calculate_frequency_score` lies in `[0, 100]`
whenever the cold average does. -/
theorem balance_bounds {h c o : ℚ} (hh0 : 0 ≤ h) (hc0 : 0 ≤ c) (hc1 : c ≤ 100)
    (ho0 : 0 ≤ o) :
    0 ≤ min 100 (min (h / 40) 1 * 40 + (100 - |50 - c|) * (2 / 5) +
      min (o / 20) 1 * 20) ∧
    min 100 (min (h / 40) 1 * 40 + (100 - |50 - c|) * (2 / 5) +
      min (o / 20) 1 * 20) ≤ 100 := by
  constructor
  · apply le_min (by norm_num)
    have habs : |50 - c| ≤ 50 := abs_le.mpr ⟨by linarith, by linarith⟩
    have t1 : (0 : ℚ) ≤ min (h / 40) 1 * 40 :=
      mul_nonneg (le_min (by positivity) (by norm_num)) (by norm_num)
    have t2 : (0 : ℚ) ≤ (100 - |50 - c|) * (2 / 5) :=
      mul_nonneg (by linarith) (by norm_num)
    have t3 : (0 : ℚ) ≤ min (o / 20) 1 * 20 :=
      mul_nonneg (le_min (by positivity) (by norm_num)) (by norm_num)
    linarith
  · exact min_le_left _ _

/-- The frequency score of a 7-number combination is in `[0, 100]` when the
per-number analyzer scores are. -/
theorem calculate_frequency_score_range (stats : ℕ → StatisticalMetrics)
    (combo : List ℕ) (h7 : combo.length = 7)
    (hs : ∀ n ∈ combo,
      0 ≤ (stats n).hot_score ∧ (stats n).hot_score ≤ 100 ∧
      0 ≤ (stats n).cold_score ∧ (stats n).cold_score ≤ 100 ∧
      0 ≤ (stats n).overdue_score ∧ (stats n).overdue_score ≤ 100) :
    0 ≤ calculate_frequency_score stats combo ∧
      calculate_frequency_score stats combo ≤ 100 := by
  obtain ⟨hh0, hh1⟩ := avg_bounds (f := fun n => (stats n).hot_score) h7
    (fun n hn => ⟨(hs n hn).1, (hs n hn).2.1⟩)
  obtain ⟨hc0, hc1⟩ := avg_bounds (f := fun n => (stats n).cold_score) h7
    (fun n hn => ⟨(hs n hn).2.2.1, (hs n hn).2.2.2.1⟩)
  obtain ⟨ho0, ho1⟩ := avg_bounds (f := fun n => (stats n).overdue_score) h7
    (fun n hn => ⟨(hs n hn).2.2.2.2.1, (hs n hn).2.2.2.2.2⟩)
  have hcfs : calculate_frequency_score stats combo =
      min 100 (min (((combo.map fun n => (stats n).hot_score).sum / 7) / 40) 1 * 40 +
        (100 - |50 - (combo.map fun n => (stats n).cold_score).sum / 7|) * (2 / 5) +
        min (((combo.map fun n => (stats n).overdue_score).sum / 7) / 20) 1 * 20) := rfl
  rw [hcfs]
  exact balance_bounds hh0 hc0 hc1 ho0

/-- A pass/fail criterion score is 100 or 0, hence in `[0, 100]`. -/
theorem iteScore_bounds (b : Bool) :
    0 ≤ (if b then (100 : ℚ) else 0) ∧ (if b then (100 : ℚ) else 0) ≤ 100 := by
  cases b <;> norm_num

/-- A nonnegative weighted sum bounded by 100 times the (positive) total
weight gives a quotient in `[0, 100]`. -/
theorem div_bounds_of_le {a b : ℚ} (hb : 0 < b) (h0 : 0 ≤ a)
    (h1 : a ≤ 100 * b) : 0 ≤ a / b ∧ a / b ≤ 100 :=
  ⟨div_nonneg h0 hb.le, by rw [div_le_iff hb]; linarith⟩

/-- C3 (amended): with positive weights, `score_combination` returns as
`final_score` the weighted mean of the per-criterion scores (100 for a
passed filter, 0 for a failed one, plus the frequency score when historical
statistics exist) over the weights actually applied, rounded to two decimal
places, and this value lies in `[0, 100]`. -/
theorem score_combination_weighted_mean
    (cfg : FilterConfig) (stats : Option (ℕ → StatisticalMetrics))
    (combo : List ℕ) (ev : EvalPasses)
    (hw1 : 0 < cfg.continuous_weight) (hw2 : 0 < cfg.zone3_weight)
    (hw3 : 0 < cfg.zone4_weight) (hw4 : 0 < cfg.odd_even_weight)
    (hw5 : 0 < cfg.sum_weight) (hw6 : 0 < cfg.last_digit_weight)
    (hw7 : 0 < cfg.pull_weight) (hw8 : 0 < cfg.frequency_weight)
    (h7 : combo.length = 7)
    (hs : ∀ s, stats = some s → ∀ n ∈ combo,
      0 ≤ (s n).hot_score ∧ (s n).hot_score ≤ 100 ∧
      0 ≤ (s n).cold_score ∧ (s n).cold_score ≤ 100 ∧
      0 ≤ (s n).overdue_score ∧ (s n).overdue_score ≤ 100) :
    (score_combination cfg stats combo ev).final_score =
      round2
        (((if ev.continuous then (100 : ℚ) else 0) * cfg.continuous_weight +
          (if ev.zone3 then (100 : ℚ) else 0) * cfg.zone3_weight +
          (if ev.zone4 then (100 : ℚ) else 0) * cfg.zone4_weight +
          (if ev.odd_even then (100 : ℚ) else 0) * cfg.odd_even_weight +
          (if ev.sum then (100 : ℚ) else 0) * cfg.sum_weight +
          (if ev.last_digits then (100 : ℚ) else 0) * cfg.last_digit_weight +
          (if ev.pull then (100 : ℚ) else 0) * cfg.pull_weight +
          (match stats with
            | some s => calculate_frequency_score s combo * cfg.frequency_weight
            | none => 0)) /
         (cfg.continuous_weight + cfg.zone3_weight + cfg.zone4_weight +
          cfg.odd_even_weight + cfg.sum_weight + cfg.last_digit_weight +
          cfg.pull_weight +
          (match stats with
            | some _ => cfg.frequency_weight
            | none => 0))) ∧
    0 ≤ (score_combination cfg stats combo ev).final_score ∧
    (score_combination cfg stats combo ev).final_score ≤ 100 := by
  obtain ⟨a1, b1⟩ := iteScore_bounds ev.continuous
  obtain ⟨a2, b2⟩ := iteScore_bounds ev.zone3
  obtain ⟨a3, b3⟩ := iteScore_bounds ev.zone4
  obtain ⟨a4, b4⟩ := iteScore_bounds ev.odd_even
  obtain ⟨a5, b5⟩ := iteScore_bounds ev.sum
  obtain ⟨a6, b6⟩ := iteScore_bounds ev.last_digits
  obtain ⟨a7, b7⟩ := iteScore_bounds ev.pull
  have m1 := mul_nonneg a1 hw1.le
  have m2 := mul_nonneg a2 hw2.le
  have m3 := mul_nonneg a3 hw3.le
  have m4 := mul_nonneg a4 hw4.le
  have m5 := mul_nonneg a5 hw5.le
  have m6 := mul_nonneg a6 hw6.le
  have m7 := mul_nonneg a7 hw7.le
  have u1 := mul_le_mul_of_nonneg_right b1 hw1.le
  have u2 := mul_le_mul_of_nonneg_right b2 hw2.le
  have u3 := mul_le_mul_of_nonneg_right b3 hw3.le
  have u4 := mul_le_mul_of_nonneg_right b4 hw4.le
  have u5 := mul_le_mul_of_nonneg_right b5 hw5.le
  have u6 := mul_le_mul_of_nonneg_right b6 hw6.le
  have u7 := mul_le_mul_of_nonneg_right b7 hw7.le
  rcases stats with _ | s
  · have htw : (0 : ℚ) < cfg.continuous_weight + cfg.zone3_weight + cfg.zone4_weight +
        cfg.odd_even_weight + cfg.sum_weight + cfg.last_digit_weight + cfg.pull_weight := by
      linarith
    have heq : (score_combination cfg none combo ev).final_score =
        round2
          (((if ev.continuous then (100 : ℚ) else 0) * cfg.continuous_weight +
            (if ev.zone3 then (100 : ℚ) else 0) * cfg.zone3_weight +
            (if ev.zone4 then (100 : ℚ) else 0) * cfg.zone4_weight +
            (if ev.odd_even then (100 : ℚ) else 0) * cfg.odd_even_weight +
            (if ev.sum then (100 : ℚ) else 0) * cfg.sum_weight +
            (if ev.last_digits then (100 : ℚ) else 0) * cfg.last_digit_weight +
            (if ev.pull then (100 : ℚ) else 0) * cfg.pull_weight) /
           (cfg.continuous_weight + cfg.zone3_weight + cfg.zone4_weight +
            cfg.odd_even_weight + cfg.sum_weight + cfg.last_digit_weight +
            cfg.pull_weight)) := by
      unfold score_combination
      dsimp only
      rw [if_pos htw]
    obtain ⟨hq0, hq1⟩ := div_bounds_of_le
      (a := (if ev.continuous then (100 : ℚ) else 0) * cfg.continuous_weight +
        (if ev.zone3 then (100 : ℚ) else 0) * cfg.zone3_weight +
        (if ev.zone4 then (100 : ℚ) else 0) * cfg.zone4_weight +
        (if ev.odd_even then (100 : ℚ) else 0) * cfg.odd_even_weight +
        (if ev.sum then (100 : ℚ) else 0) * cfg.sum_weight +
        (if ev.last_digits then (100 : ℚ) else 0) * cfg.last_digit_weight +
        (if ev.pull then (100 : ℚ) else 0) * cfg.pull_weight)
      htw (by linarith) (by linarith)
    obtain ⟨hr0, hr1⟩ := round2_bounds hq0 hq1
    refine ⟨?_, ?_, ?_⟩
    · rw [heq]
      norm_num
    · rw [heq]
      exact hr0
    · rw [heq]
      exact hr1
  · have hfs := calculate_frequency_score_range s combo h7 (hs s rfl)
    obtain ⟨a8, b8⟩ := hfs
    have m8 := mul_nonneg a8 hw8.le
    have u8 := mul_le_mul_of_nonneg_right b8 hw8.le
    have htw : (0 : ℚ) < cfg.continuous_weight + cfg.zone3_weight + cfg.zone4_weight +
        cfg.odd_even_weight + cfg.sum_weight + cfg.last_digit_weight + cfg.pull_weight +
        cfg.frequency_weight := by
      linarith
    have heq : (score_combination cfg (some s) combo ev).final_score =
        round2
          (((if ev.continuous then (100 : ℚ) else 0) * cfg.continuous_weight +
            (if ev.zone3 then (100 : ℚ) else 0) * cfg.zone3_weight +
            (if ev.zone4 then (100 : ℚ) else 0) * cfg.zone4_weight +
            (if ev.odd_even then (100 : ℚ) else 0) * cfg.odd_even_weight +
            (if ev.sum then (100 : ℚ) else 0) * cfg.sum_weight +
            (if ev.last_digits then (100 : ℚ) else 0) * cfg.last_digit_weight +
            (if ev.pull then (100 : ℚ) else 0) * cfg.pull_weight +
            calculate_frequency_score s combo * cfg.frequency_weight) /
           (cfg.continuous_weight + cfg.zone3_weight + cfg.zone4_weight +
            cfg.odd_even_weight + cfg.sum_weight + cfg.last_digit_weight +
            cfg.pull_weight + cfg.frequency_weight)) := by
      unfold score_combination
      dsimp only
      rw [if_pos htw]
    obtain ⟨hq0, hq1⟩ := div_bounds_of_le
      (a := (if ev.continuous then (100 : ℚ) else 0) * cfg.continuous_weight +
        (if ev.zone3 then (100 : ℚ) else 0) * cfg.zone3_weight +
        (if ev.zone4 then (100 : ℚ) else 0) * cfg.zone4_weight +
        (if ev.odd_even then (100 : ℚ) else 0) * cfg.odd_even_weight +
        (if ev.sum then (100 : ℚ) else 0) * cfg.sum_weight +
        (if ev.last_digits then (100 : ℚ) else 0) * cfg.last_digit_weight +
        (if ev.pull then (100 : ℚ) else 0) * cfg.pull_weight +
        calculate_frequency_score s combo * cfg.frequency_weight)
      htw (by linarith) (by linarith)
    obtain ⟨hr0, hr1⟩ := round2_bounds hq0 hq1
    refine ⟨?_, ?_, ?_⟩
    · rw [heq]
    · rw [heq]
      exact hr0
    · rw [heq]
      exact hr1

/-- C3 witness: the default configuration with all filters passed and no
historical statistics yields a nonnegative final score. -/
theorem score_combination_weighted_mean_witness :
    0 ≤ (score_combination {} none [1, 2, 3, 4, 5, 6, 7]
      ⟨true, true, true, true, true, true, true⟩).final_score :=
  (score_combination_weighted_mean {} none [1, 2, 3, 4, 5, 6, 7]
    ⟨true, true, true, true, true, true, true⟩
    (by decide) (by decide) (by decide) (by decide)
    (by decide) (by decide) (by decide) (by decide)
    (by decide) (fun s h => by cases h)).2.1

/-- C3 counterexample to the claim as stated: with only the continuity
filter passed under default weights the exact weighted mean is 200/17, but
the returned final score is the rounded 294/25 = 11.76, so `final_score`
does not equal the weighted sum divided by the applied weights. -/
theorem score_combination_rounds_cex :
    (score_combination {} none [1, 10, 13, 19, 26, 27, 34]
      ⟨true, false, false, false, false, false, false⟩).final_score = 294 / 25 ∧
    (294 / 25 : ℚ) ≠
      (100 * 10 + 0 * 15 + 0 * 15 + 0 * 10 + 0 * 15 + 0 * 10 + 0 * 10 : ℚ) /
        (10 + 15 + 15 + 10 + 15 + 10 + 10) := by
  refine ⟨?_, by norm_num⟩
  have h1 : (score_combination {} none [1, 10, 13, 19, 26, 27, 34]
      ⟨true, false, false, false, false, false, false⟩).final_score =
      round2 (20000 / 1700) := by
    norm_num [score_combination]
  have hm : (20000 / 1700 : ℚ) = 20000 / 17 / 100 := by norm_num
  have h2 : round2 (20000 / 1700) = 294 / 25 := by
    unfold round2 roundHalfEven
    have hx : (20000 / 1700 : ℚ) * 100 = 20000 / 17 := by norm_num
    rw [hx]
    have hfl : ⌊(20000 / 17 : ℚ)⌋ = 1176 := by
      rw [Int.floor_eq_iff]
      norm_num
    have hfr : Int.fract (20000 / 17 : ℚ) ≠ 1 / 2 := by
      unfold Int.fract
      rw [hfl]
      norm_num
    rw [if_neg hfr, round_eq]
    have hy : (20000 / 17 : ℚ) + 1 / 2 = 40017 / 34 := by norm_num
    rw [hy]
    have hfl2 : ⌊(40017 / 34 : ℚ)⌋ = 1176 := by
      rw [Int.floor_eq_iff]
      norm_num
    rw [hfl2]
    norm_num
  rw [h1, h2]

/-! ## C4: ranking -/

/-- Inserting an entry whose key is `q` in front of the suffix of
smaller-or-equal keys commutes with filtering the key-`q` entries: the
inserted entry lands first among them. -/
theorem filter_orderedInsert_true {q : ℚ} {p : PredEntry → Bool}
    (hp : ∀ e, p e = true → entryKey e = q) (x : PredEntry) (hx : p x = true) :
    ∀ L : List PredEntry,
      (List.orderedInsert (fun a b => entryKey b ≤ entryKey a) x L).filter p =
        x :: L.filter p := by
  intro L
  induction L with
  | nil => simp [hx]
  | cons b l ih =>
      simp only [List.orderedInsert]
      by_cases hr : entryKey b ≤ entryKey x
      · rw [if_pos hr]
        simp [hx]
      · rw [if_neg hr]
        have hpb : ¬ p b = true := by
          intro hpb
          exact absurd (le_of_eq ((hp b hpb).trans (hp x hx).symm)) hr
        rw [List.filter_cons_of_neg hpb, ih, List.filter_cons_of_neg hpb]

/-- Inserting an entry the filter rejects does not change the filtered list. -/
theorem filter_orderedInsert_false {p : PredEntry → Bool} (x : PredEntry)
    (hx : p x = false) :
    ∀ L : List PredEntry,
      (List.orderedInsert (fun a b => entryKey b ≤ entryKey a) x L).filter p =
        L.filter p := by
  intro L
  induction L with
  | nil => simp [hx]
  | cons b l ih =>
      simp only [List.orderedInsert]
      by_cases hr : entryKey b ≤ entryKey x
      · rw [if_pos hr]
        simp [hx]
      · rw [if_neg hr]
        by_cases hpb : p b = true
        · rw [List.filter_cons_of_pos hpb, ih, List.filter_cons_of_pos hpb]
        · rw [List.filter_cons_of_neg hpb, ih, List.filter_cons_of_neg hpb]

/-- Stability of the descending sort: filtering the entries of one key value
out of the sorted list gives them in their original order. -/
theorem filter_sortByScoreDesc {q : ℚ} {p : PredEntry → Bool}
    (hp : ∀ e, p e = true → entryKey e = q) :
    ∀ l : List PredEntry, (sortByScoreDesc l).filter p = l.filter p := by
  intro l
  induction l with
  | nil => rfl
  | cons a l ih =>
      show (List.orderedInsert _ a (sortByScoreDesc l)).filter p = _
      by_cases hpa : p a = true
      · rw [filter_orderedInsert_true hp a hpa, ih, List.filter_cons_of_pos hpa]
      · have hpa' : p a = false := by
          cases h : p a
          · rfl
          · exact absurd h hpa
        rw [filter_orderedInsert_false a hpa', ih, List.filter_cons_of_neg hpa]

/-- Ranked entries built from an index-annotated entry list keep the
entries' payload: mapping back to the raw triple undoes the annotation. -/
theorem enumFrom_map_rankedEntry_triple :
    ∀ (n : ℕ) (es : List PredEntry),
      ((es.enumFrom n).map rankedEntry).map
          (fun rp => (rp.combination, rp.evaluation, rp.scoring)) =
        es.map (fun e => (e.combo, e.evaluation, e.scoring)) := by
  intro n es
  induction es generalizing n with
  | nil => rfl
  | cons e es ih =>
      rw [List.enumFrom_cons]
      simp only [List.map_cons]
      rw [ih (n + 1)]
      rfl

/-- Filtering one score value out of ranked entries, then reading the
combinations, ignores the index annotation. -/
theorem enumFrom_map_rankedEntry_filter (q : ℚ) :
    ∀ (n : ℕ) (es : List PredEntry),
      (((es.enumFrom n).map rankedEntry).filter
          (fun rp => rp.score == some q)).map (fun rp => rp.combination) =
        (es.filter (fun e => e.scoring.map (fun s => s.final_score) == some q)).map
          (fun e => e.combo) := by
  intro n es
  induction es generalizing n with
  | nil => rfl
  | cons e es ih =>
      rw [List.enumFrom_cons, List.map_cons]
      by_cases hq : (e.scoring.map (fun s => s.final_score) == some q) = true
      · rw [List.filter_cons_of_pos (p := fun rp : RankedPrediction => rp.score == some q)
            (show ((rankedEntry (n, e)).score == some q) = true from hq),
          List.filter_cons_of_pos
            (p := fun x : PredEntry => x.scoring.map (fun s => s.final_score) == some q) hq,
          List.map_cons, List.map_cons, ih (n + 1)]
        rfl
      · rw [List.filter_cons_of_neg (p := fun rp : RankedPrediction => rp.score == some q)
            (show ¬ ((rankedEntry (n, e)).score == some q) = true from hq),
          List.filter_cons_of_neg
            (p := fun x : PredEntry => x.scoring.map (fun s => s.final_score) == some q) hq,
          ih (n + 1)]

/-- C4 (amended): when every entry carries a scoring result,
`rank_predictions` returns the entries sorted descending by `final_score`
with ties kept in their original relative order, assigns ranks 1..N in that
order, and a strictly larger score always gets a strictly smaller rank. -/
theorem rank_predictions_ranking (l : List PredEntry)
    (h : ∀ e ∈ l, e.scoring.isSome = true) :
    (∀ i : ℕ, i < (rank_predictions l).length →
      ((rank_predictions l).getD i ⟨0, [], none, none, none⟩).rank = i + 1) ∧
    ((rank_predictions l).map (fun rp => (rp.combination, rp.evaluation, rp.scoring))).Perm
      (l.map (fun e => (e.combo, e.evaluation, e.scoring))) ∧
    (∀ q : ℚ, ((rank_predictions l).filter (fun rp => rp.score == some q)).map
        (fun rp => rp.combination) =
      (l.filter (fun e => e.scoring.map (fun s => s.final_score) == some q)).map
        (fun e => e.combo)) ∧
    (∀ i j : ℕ, i < j → j < (rank_predictions l).length →
      rankedScore ((rank_predictions l).getD j ⟨0, [], none, none, none⟩) ≤
        rankedScore ((rank_predictions l).getD i ⟨0, [], none, none, none⟩)) ∧
    (∀ i j : ℕ, i < (rank_predictions l).length → j < (rank_predictions l).length →
      rankedScore ((rank_predictions l).getD j ⟨0, [], none, none, none⟩) <
        rankedScore ((rank_predictions l).getD i ⟨0, [], none, none, none⟩) →
      ((rank_predictions l).getD i ⟨0, [], none, none, none⟩).rank <
        ((rank_predictions l).getD j ⟨0, [], none, none, none⟩).rank) := by
  by_cases hl : l = []
  · subst hl
    have h0 : rank_predictions ([] : List PredEntry) = [] := rfl
    refine ⟨?_, ?_, ?_, ?_, ?_⟩ <;> simp [h0]
  · have hws : l.filter (fun e => e.scoring.isSome) = l := List.filter_eq_self.mpr h
    have hout : rank_predictions l = (sortByScoreDesc l).enum.map rankedEntry := by
      unfold rank_predictions
      dsimp only
      rw [hws, List.isEmpty_eq_false.mpr hl]
      simp
    haveI instTotal : IsTotal PredEntry (fun a b => entryKey b ≤ entryKey a) :=
      ⟨fun a b => le_total (entryKey b) (entryKey a)⟩
    haveI instTrans : IsTrans PredEntry (fun a b => entryKey b ≤ entryKey a) :=
      ⟨fun a b c hab hbc => le_trans hbc hab⟩
    have hsorted : List.Sorted (fun a b => entryKey b ≤ entryKey a) (sortByScoreDesc l) :=
      List.sorted_insertionSort _ l
    have hperm : (sortByScoreDesc l).Perm l := List.perm_insertionSort _ l
    have hlen : (rank_predictions l).length = (sortByScoreDesc l).length := by
      rw [hout, List.length_map, List.enum_length]
    have hgetD : ∀ i, i < (sortByScoreDesc l).length →
        (rank_predictions l).getD i ⟨0, [], none, none, none⟩ =
          rankedEntry (i, (sortByScoreDesc l).getD i ⟨[], none, none⟩) := by
      intro i hi
      have hi' : i < ((sortByScoreDesc l).enum.map rankedEntry).length := by
        rw [List.length_map, List.enum_length]
        exact hi
      rw [hout, List.getD_eq_getElem?_getD, List.getElem?_eq_getElem hi',
        Option.getD_some, List.getElem_map, List.getElem_enum,
        List.getD_eq_getElem?_getD, List.getElem?_eq_getElem hi, Option.getD_some]
    have hrank : ∀ i, i < (rank_predictions l).length →
        ((rank_predictions l).getD i ⟨0, [], none, none, none⟩).rank = i + 1 := by
      intro i hi
      rw [hgetD i (hlen ▸ hi)]
      rfl
    have hscore : ∀ i, i < (rank_predictions l).length →
        rankedScore ((rank_predictions l).getD i ⟨0, [], none, none, none⟩) =
          entryKey ((sortByScoreDesc l).getD i ⟨[], none, none⟩) := by
      intro i hi
      rw [hgetD i (hlen ▸ hi)]
      rfl
    have hsortedD : ∀ i j, i < j → j < (sortByScoreDesc l).length →
        entryKey ((sortByScoreDesc l).getD j ⟨[], none, none⟩) ≤
          entryKey ((sortByScoreDesc l).getD i ⟨[], none, none⟩) := by
      intro i j hij hj
      have hi : i < (sortByScoreDesc l).length := lt_trans hij hj
      have hrel := hsorted.rel_get_of_lt (a := ⟨i, hi⟩) (b := ⟨j, hj⟩)
        (Fin.mk_lt_mk.mpr hij)
      rw [List.get_eq_getElem, List.get_eq_getElem] at hrel
      rwa [List.getD_eq_getElem?_getD, List.getElem?_eq_getElem hj, Option.getD_some,
        List.getD_eq_getElem?_getD, List.getElem?_eq_getElem hi, Option.getD_some]
    refine ⟨hrank, ?_, ?_, ?_, ?_⟩
    · rw [hout]
      have htr : ((sortByScoreDesc l).enum.map rankedEntry).map
          (fun rp => (rp.combination, rp.evaluation, rp.scoring)) =
          (sortByScoreDesc l).map (fun e => (e.combo, e.evaluation, e.scoring)) :=
        enumFrom_map_rankedEntry_triple 0 (sortByScoreDesc l)
      rw [htr]
      exact hperm.map _
    · intro q
      rw [hout]
      have h1 : (((sortByScoreDesc l).enum.map rankedEntry).filter
          (fun rp => rp.score == some q)).map (fun rp => rp.combination) =
          ((sortByScoreDesc l).filter
            (fun e => e.scoring.map (fun s => s.final_score) == some q)).map
            (fun e => e.combo) :=
        enumFrom_map_rankedEntry_filter q 0 (sortByScoreDesc l)
      rw [h1]
      have hp : ∀ e : PredEntry,
          (e.scoring.map (fun s => s.final_score) == some q) = true →
          entryKey e = q := by
        intro e he
        cases hsc : e.scoring with
        | none => rw [hsc] at he; simp at he
        | some sr =>
            rw [hsc] at he
            simp only [Option.map_some', beq_iff_eq, Option.some.injEq] at he
            unfold entryKey
            rw [hsc]
            simp [he]
      rw [filter_sortByScoreDesc hp]
    · intro i j hij hj
      rw [hscore i (lt_trans hij hj), hscore j hj]
      exact hsortedD i j hij (hlen ▸ hj)
    · intro i j hi hj hlt
      rw [hrank i hi, hrank j hj]
      rcases lt_trichotomy i j with hij | hij | hij
      · omega
      · subst hij
        exact absurd hlt (lt_irrefl _)
      · have hle := hsortedD j i hij (hlen ▸ hi)
        rw [← hscore j hj, ← hscore i hi] at hle
        exact absurd hle (not_le.mpr hlt)

/-- C4 counterexample to the claim as stated: two entries with equal final
scores receive distinct ranks 1 and 2, so `score[i] >= score[j]` does not
imply `rank[i] <= rank[j]` (take `i` the rank-2 entry and `j` the rank-1
entry, whose scores are equal). -/
theorem rank_predictions_ties_cex :
    (∀ e ∈ [(⟨[1], none, some ⟨[], 50, []⟩⟩ : PredEntry),
        (⟨[2], none, some ⟨[], 50, []⟩⟩ : PredEntry)], e.scoring.isSome = true) ∧
    ¬ (∀ i j : Fin (rank_predictions [(⟨[1], none, some ⟨[], 50, []⟩⟩ : PredEntry),
          (⟨[2], none, some ⟨[], 50, []⟩⟩ : PredEntry)]).length,
        rankedScore ((rank_predictions [(⟨[1], none, some ⟨[], 50, []⟩⟩ : PredEntry),
            (⟨[2], none, some ⟨[], 50, []⟩⟩ : PredEntry)]).get j) ≤
          rankedScore ((rank_predictions [(⟨[1], none, some ⟨[], 50, []⟩⟩ : PredEntry),
            (⟨[2], none, some ⟨[], 50, []⟩⟩ : PredEntry)]).get i) →
        ((rank_predictions [(⟨[1], none, some ⟨[], 50, []⟩⟩ : PredEntry),
            (⟨[2], none, some ⟨[], 50, []⟩⟩ : PredEntry)]).get i).rank ≤
          ((rank_predictions [(⟨[1], none, some ⟨[], 50, []⟩⟩ : PredEntry),
            (⟨[2], none, some ⟨[], 50, []⟩⟩ : PredEntry)]).get j).rank) := by
  constructor
  · decide
  · decide

/-- C4 witness: the singleton list with score 50 is ranked 1 with all the
amended properties instantiated. -/
theorem rank_predictions_ranking_witness :
    (∀ i : ℕ, i < (rank_predictions [(⟨[1], none, some ⟨[], 50, []⟩⟩ : PredEntry)]).length →
      ((rank_predictions [(⟨[1], none, some ⟨[], 50, []⟩⟩ : PredEntry)]).getD i
        ⟨0, [], none, none, none⟩).rank = i + 1) ∧
    ((rank_predictions [(⟨[1], none, some ⟨[], 50, []⟩⟩ : PredEntry)]).map
        (fun rp => (rp.combination, rp.evaluation, rp.scoring))).Perm
      ([(⟨[1], none, some ⟨[], 50, []⟩⟩ : PredEntry)].map
        (fun e => (e.combo, e.evaluation, e.scoring))) ∧
    (∀ q : ℚ, ((rank_predictions [(⟨[1], none, some ⟨[], 50, []⟩⟩ : PredEntry)]).filter
        (fun rp => rp.score == some q)).map (fun rp => rp.combination) =
      ([(⟨[1], none, some ⟨[], 50, []⟩⟩ : PredEntry)].filter
        (fun e => e.scoring.map (fun s => s.final_score) == some q)).map
        (fun e => e.combo)) ∧
    (∀ i j : ℕ, i < j →
      j < (rank_predictions [(⟨[1], none, some ⟨[], 50, []⟩⟩ : PredEntry)]).length →
      rankedScore ((rank_predictions [(⟨[1], none, some ⟨[], 50, []⟩⟩ : PredEntry)]).getD j
        ⟨0, [], none, none, none⟩) ≤
      rankedScore ((rank_predictions [(⟨[1], none, some ⟨[], 50, []⟩⟩ : PredEntry)]).getD i
        ⟨0, [], none, none, none⟩)) ∧
    (∀ i j : ℕ, i < (rank_predictions [(⟨[1], none, some ⟨[], 50, []⟩⟩ : PredEntry)]).length →
      j < (rank_predictions [(⟨[1], none, some ⟨[], 50, []⟩⟩ : PredEntry)]).length →
      rankedScore ((rank_predictions [(⟨[1], none, some ⟨[], 50, []⟩⟩ : PredEntry)]).getD j
        ⟨0, [], none, none, none⟩) <
      rankedScore ((rank_predictions [(⟨[1], none, some ⟨[], 50, []⟩⟩ : PredEntry)]).getD i
        ⟨0, [], none, none, none⟩) →
      ((rank_predictions [(⟨[1], none, some ⟨[], 50, []⟩⟩ : PredEntry)]).getD i
        ⟨0, [], none, none, none⟩).rank <
      ((rank_predictions [(⟨[1], none, some ⟨[], 50, []⟩⟩ : PredEntry)]).getD j
        ⟨0, [], none, none, none⟩).rank) :=
  rank_predictions_ranking [(⟨[1], none, some ⟨[], 50, []⟩⟩ : PredEntry)] (by decide)

end Loto7
